import Mathlib

/-!
Verification of the natural-language specification of Swingline
(`src/swingline.c`), a GPU Voronoi renderer.  The CPU-side computations
(color encoding, cone and instance buffer construction, error paths, the
frame loop) are embedded as Lean definitions translated from the C source.
The rasterization backend (triangle rasterization, depth test, clear
values) is not part of the repository; it is modelled from the spec where
a claim depends on it, and those definitions say so in their doc comments.
Machine floats are modelled by real numbers.
-/

namespace Swingline

/-! ### Instance color encoding (voronoi_vert_src, lines 22-26) -/

/-- Integer channel values computed by the vertex shader from the instance
index: `r = k % 256`, `g = (k / 256) % 256`, `b = (k / 65536) % 256`. -/
def instColorInt (k : ℕ) : ℕ × ℕ × ℕ :=
  (k % 256, k / 256 % 256, k / 65536 % 256)

/-- The normalized color emitted by the vertex shader:
`vec3(r / 255.0, g / 255.0, b / 255.0)`. -/
noncomputable def instColor (k : ℕ) : ℝ × ℝ × ℝ :=
  (((k % 256 : ℕ) : ℝ) / 255, ((k / 256 % 256 : ℕ) : ℝ) / 255,
    ((k / 65536 % 256 : ℕ) : ℝ) / 255)

/-- Modelled from the spec: decoding a sampled 8-bit-per-channel color back
to an instance index.  Each channel is quantized to the nearest multiple of
`1/255` (8-bit readback of the RGB attachment) and the three bytes are
recombined little-endian. -/
noncomputable def decodeIndex (c : ℝ × ℝ × ℝ) : ℤ :=
  round (255 * c.1) + 256 * round (255 * c.2.1) + 65536 * round (255 * c.2.2)

/-! ### Cone geometry (build_cone, lines 120-146) -/

/-- Ring angle `2 * M_PI * i / n` used by `build_cone`. -/
noncomputable def theta (n i : ℕ) : ℝ :=
  2 * Real.pi * i / n

/-- Ring vertex `i` of the cone: `(cos angle, sin angle, 1)`. -/
noncomputable def ringV (n i : ℕ) : ℝ × ℝ × ℝ :=
  (Real.cos (theta n i), Real.sin (theta n i), 1)

/-- The cone apex `(0, 0, -1)` written at buffer indices 0..2. -/
def apexV : ℝ × ℝ × ℝ :=
  (0, 0, -1)

/-- The cone vertices in buffer order: apex, then ring vertices for
`i = 0..n` (the loop bound `i <= n` duplicates the first ring vertex). -/
noncomputable def coneVerts (n : ℕ) : List (ℝ × ℝ × ℝ) :=
  apexV :: (List.range (n + 1)).map (ringV n)

/-- The flat float buffer written by `build_cone`: `buf[0..2]` is the apex,
then for each `i = 0..n` the loop writes
`buf[i*3+3] = cos angle`, `buf[i*3+4] = sin angle`, `buf[i*3+5] = 1`. -/
noncomputable def coneBuf (n : ℕ) : List ℝ :=
  [0, 0, -1] ++ (List.range (n + 1)).flatMap
    (fun i => [Real.cos (2 * Real.pi * i / n), Real.sin (2 * Real.pi * i / n), 1])

/-! ### Instance offsets (build_instances, lines 152-174) -/

/-- The float buffer written by `build_instances`: `2*n` components, each
`((float)rand() / RAND_MAX - 0.5) * 2`, where `randv i` is the value of the
`i`-th call to `rand()` and `randMax` is `RAND_MAX`. -/
noncomputable def buildInstancesBuf (randv : ℕ → ℕ) (randMax : ℕ) (n : ℕ) : List ℝ :=
  (List.range (2 * n)).map (fun i => (((randv i : ℕ) : ℝ) / randMax - 0.5) * 2)

/-! ### Heap write traces (memory safety of build_cone / build_instances) -/

/-- The indices written by `build_cone` into its heap buffer, in program
order: the apex stores to 0,1,2, then iteration `i` (for `i = 0..n`) stores
to `i*3+3`, `i*3+4`, `i*3+5`. -/
def coneWriteIndices (n : ℕ) : List ℕ :=
  [0, 1, 2] ++ (List.range (n + 1)).flatMap (fun i => [i * 3 + 3, i * 3 + 4, i * 3 + 5])

/-- Number of floats allocated by `build_cone`: `(n + 2) * 3`. -/
def coneAllocFloats (n : ℕ) : ℕ :=
  (n + 2) * 3

/-- The indices written by `build_instances`: `i = 0 .. 2*n - 1`. -/
def instWriteIndices (n : ℕ) : List ℕ :=
  List.range (2 * n)

/-- Number of floats allocated by `build_instances`: `n * 2`. -/
def instAllocFloats (n : ℕ) : ℕ :=
  n * 2

/-! ### Allocation failure behavior (build_cone lines 124-137, build_instances
lines 156-162) -/

/-- Possible outcomes of a geometry-construction call, distinguishing a
normal result, a diagnostic-plus-exit failure path, and a write through a
null pointer (what actually happens on `malloc` failure, since the result
of `malloc` is used unconditionally). -/
inductive AllocRun where
  | ok (buf : List ℝ)
  | fatalDiagExit (msg : String) (code : ℤ)
  | nullPtrWrite

/-- Whether an outcome is the diagnostic-plus-exit failure path. -/
def AllocRun.isFatalDiagExit : AllocRun → Bool
  | .fatalDiagExit _ _ => true
  | _ => false

/-- Whether an outcome is a write through a null pointer. -/
def AllocRun.isNullPtrWrite : AllocRun → Bool
  | .nullPtrWrite => true
  | _ => false

/-- `build_cone` with the allocator outcome made explicit: the source calls
`malloc` and immediately stores through the pointer (`buf[0] = 0`) without
any check, so a failed allocation leads to a null-pointer write, not to a
diagnostic or an `exit` call. -/
noncomputable def buildConeRun (allocOk : Bool) (n : ℕ) : AllocRun :=
  if allocOk then .ok (coneBuf n) else .nullPtrWrite

/-- `build_instances` with the allocator outcome made explicit; like
`build_cone` it stores through the `malloc` result unconditionally. -/
noncomputable def buildInstancesRun (allocOk : Bool) (randv : ℕ → ℕ)
    (randMax n : ℕ) : AllocRun :=
  if allocOk then .ok (buildInstancesBuf randv randMax n) else .nullPtrWrite

/-! ### Shader and program construction (build_shader lines 66-88,
build_program lines 90-111) -/

/-- Outcome of `build_shader` / `build_program`: either the GL handle, or
the diagnostic written to stderr together with the `exit` argument. -/
inductive ShaderOutcome where
  | ok (handle : ℕ)
  | fatalExit (msg : String) (code : ℤ)

/-- Diagnostic printed by `build_shader` on compile failure; the C format
string wraps the backend info log in single quotes:
`"Error: shader failed with error [log]\n"`. -/
def shaderFailMsg (infoLog : String) : String :=
  "Error: shader failed with error " ++ infoLog ++ "\n"

/-- Diagnostic printed by `build_program` on link failure:
`"Error: linking failed with error [log]\n"`. -/
def programFailMsg (infoLog : String) : String :=
  "Error: linking failed with error " ++ infoLog ++ "\n"

/-- `build_shader`, parameterized by the backend state it queries: the
compile status reported by `glGetShaderiv(GL_COMPILE_STATUS)`, the info
log, and the handle returned by `glCreateShader`.  On failure it prints the
diagnostic to stderr and calls `exit(-1)`; on success it returns the
handle. -/
def build_shader (handle : ℕ) (compileOk : Bool) (infoLog : String) : ShaderOutcome :=
  if compileOk then .ok handle else .fatalExit (shaderFailMsg infoLog) (-1)

/-- `build_program`, parameterized by the link status reported by
`glGetProgramiv(GL_LINK_STATUS)` and the info log. -/
def build_program (handle : ℕ) (linkOk : Bool) (infoLog : String) : ShaderOutcome :=
  if linkOk then .ok handle else .fatalExit (programFailMsg infoLog) (-1)

/-! ### Offscreen framebuffer setup (main, lines 312-335) -/

/-- The GL enumerant `GL_FRAMEBUFFER_COMPLETE` (0x8CD5). -/
def GL_FRAMEBUFFER_COMPLETE : ℤ :=
  36053

/-- Outcome of the framebuffer-completeness check in `main`: on any status
other than complete the program prints
`"Error: framebuffer is incomplete ([status])\n"` and calls `exit(-1)`;
otherwise startup proceeds with the color and depth attachment dimensions
recorded (both created by `glTexImage2D` at `width x height`). -/
inductive FBOutcome where
  | ok (colorW colorH depthW depthH : ℕ)
  | fatalExit (msg : String) (code : ℤ)

/-- Diagnostic printed when the framebuffer is incomplete, carrying the
reported status code (`%i` in the C format string). -/
def fbFailMsg (status : ℤ) : String :=
  "Error: framebuffer is incomplete (" ++ toString status ++ ")\n"

/-- The framebuffer-setup fragment of `main`: the color texture is
allocated at `width x height` (GL_RGB / GL_UNSIGNED_BYTE), the depth
texture at `width x height` (GL_DEPTH_COMPONENT / GL_FLOAT), both are
attached, and `glCheckFramebufferStatus` is compared against
`GL_FRAMEBUFFER_COMPLETE`. -/
def setupFramebuffer (status : ℤ) (width height : ℕ) : FBOutcome :=
  if status ≠ GL_FRAMEBUFFER_COMPLETE then .fatalExit (fbFailMsg status) (-1)
  else .ok width height width height

/-! ### Frame loop (render_voronoi lines 262-277, main lines 346-373) -/

/-- Observable render events issued by `main`, carrying the clear color,
clear depth, depth-test flag, and draw parameters. -/
inductive Ev where
  | offscreen (clearR clearG clearB clearA clearDepth : ℚ) (depthTest : Bool)
      (vertCount instCount : ℕ)
  | present (clearR clearG clearB clearA clearDepth : ℚ) (vertCount : ℕ)

/-- Whether an event is the offscreen (Voronoi) pass. -/
def Ev.isOffscreen : Ev → Bool
  | .offscreen _ _ _ _ _ _ _ _ => true
  | _ => false

/-- The event issued by `render_voronoi`: bind the offscreen target, enable
depth testing, clear color to `(1,1,0,1)` and depth to `1`, and issue one
instanced triangle-fan draw of `cone_res + 2` vertices and `point_count`
instances, then unbind. -/
def render_voronoi_ev (coneRes pointCount : ℕ) : Ev :=
  .offscreen 1 1 0 1 1 true (coneRes + 2) pointCount

/-- The event issued by one iteration of the present loop: clear (color
`(0,0,0,1)`, depth `1`, both set once before the loop), one non-instanced
4-vertex triangle-fan draw, then the buffer swap. -/
def presentEv : Ev :=
  .present 0 0 0 1 1 4

/-- The `while (!glfwWindowShouldClose(win))` loop, unrolled on fuel:
`close i` is the value polled before iteration `i`.  Returns the list of
present-pass events and `some 0` when the loop exited normally (so `main`
returns 0), `none` if the fuel ran out before the close signal. -/
def mainLoop (close : ℕ → Bool) : ℕ → ℕ → List Ev × Option ℤ
  | 0, _ => ([], none)
  | fuel + 1, i =>
    if close i then ([], some 0)
    else
      let r := mainLoop close fuel (i + 1)
      (presentEv :: r.1, r.2)

/-- The event trace of `main` after startup: one offscreen pass
(`cone_res = 64`, `point_count = 100`), then the present loop. -/
def mainTrace (close : ℕ → Bool) (fuel : ℕ) : List Ev × Option ℤ :=
  (render_voronoi_ev 64 100 :: (mainLoop close fuel 0).1, (mainLoop close fuel 0).2)

/-! ### Random seeding (main never calls srand) -/

/-- The seed of the process-wide `rand()` stream as `main` runs it: the
source contains no call to `srand`, and per the C standard an unseeded
`rand` behaves as if `srand(1)` had been called at program start.  The
system entropy available to a run is therefore ignored. -/
def mainSeed (_entropy : ℕ) : ℕ :=
  1

/-- The offset buffer produced by a run of `main` with the given system
entropy: `build_instances(point_count = 100)` on the `rand` stream selected
by the (ignored) entropy, where `rng seed i` is the `i`-th value of the C
library's `rand` stream under `seed`. -/
noncomputable def mainOffsets (rng : ℕ → ℕ → ℕ) (randMax : ℕ) (entropy : ℕ) : List ℝ :=
  buildInstancesBuf (rng (mainSeed entropy)) randMax 100

/-! ### Rasterization model (spec section 4.4; backend semantics) -/

/-- Euclidean norm of a 2-vector. -/
noncomputable def norm2 (v : ℝ × ℝ) : ℝ :=
  Real.sqrt (v.1 ^ 2 + v.2 ^ 2)

/-- Euclidean distance between two clip-space points. -/
noncomputable def dist2 (p q : ℝ × ℝ) : ℝ :=
  norm2 (p.1 - q.1, p.2 - q.2)

/-- Two-dimensional cross product (signed area times two). -/
def cross2 (u v : ℝ × ℝ) : ℝ :=
  u.1 * v.2 - v.1 * u.2

/-- The xy part of a 3-vertex. -/
def xy (v : ℝ × ℝ × ℝ) : ℝ × ℝ :=
  (v.1, v.2.1)

/-- Modelled from the spec: barycentric coordinate of `p` with respect to
vertex `b` of the screen triangle `(a, b, c)` (Cramer's rule). -/
noncomputable def bary1 (a b c : ℝ × ℝ × ℝ) (p : ℝ × ℝ) : ℝ :=
  cross2 (p - xy a) (xy c - xy a) / cross2 (xy b - xy a) (xy c - xy a)

/-- Modelled from the spec: barycentric coordinate of `p` with respect to
vertex `c` of the screen triangle `(a, b, c)`. -/
noncomputable def bary2 (a b c : ℝ × ℝ × ℝ) (p : ℝ × ℝ) : ℝ :=
  cross2 (xy b - xy a) (p - xy a) / cross2 (xy b - xy a) (xy c - xy a)

/-- Modelled from the spec: rasterization of one triangle at sample point
`p`.  A non-degenerate triangle whose closed interior contains `p` produces
a fragment whose depth interpolates the vertex `z` values barycentrically
(the spec's invariant that fragment depth derives from interpolated vertex
`z`); degenerate triangles produce no fragments. -/
noncomputable def tri_raster (a b c : ℝ × ℝ × ℝ) (p : ℝ × ℝ) : Option ℝ :=
  if cross2 (xy b - xy a) (xy c - xy a) = 0 then none
  else if 0 ≤ 1 - bary1 a b c p - bary2 a b c p ∧ 0 ≤ bary1 a b c p ∧ 0 ≤ bary2 a b c p then
    some ((1 - bary1 a b c p - bary2 a b c p) * a.2.2 + bary1 a b c p * b.2.2
      + bary2 a b c p * c.2.2)
  else none

/-- The vertices of cone instance with offset `off`, as transformed by the
vertex shader: `gl_Position = vec4(pos.xy + offset, pos.z, 1.0)`. -/
noncomputable def instVerts (n : ℕ) (off : ℝ × ℝ) : List (ℝ × ℝ × ℝ) :=
  (coneVerts n).map (fun v => (v.1 + off.1, v.2.1 + off.2, v.2.2))

/-- Modelled from the spec: fragment depths produced at `p` by a
GL_TRIANGLE_FAN draw of the given vertices, in primitive order; primitive
`j` is the triangle `(verts[0], verts[j+1], verts[j+2])`. -/
noncomputable def fanFrags (verts : List (ℝ × ℝ × ℝ)) (p : ℝ × ℝ) : List ℝ :=
  match verts with
  | [] => []
  | v0 :: rest => (rest.zip rest.tail).filterMap (fun bc => tri_raster v0 bc.1 bc.2 p)

/-- Fragment depths produced at `p` by the cone instance at `off`. -/
noncomputable def instDepths (n : ℕ) (off : ℝ × ℝ) (p : ℝ × ℝ) : List ℝ :=
  fanFrags (instVerts n off) p

/-- Modelled from the spec: all fragments produced at `p` by the instanced
draw `glDrawArraysInstanced(GL_TRIANGLE_FAN, 0, cone_res + 2, point_count)`,
in instance order; each fragment carries the color the vertex shader
computed from its instance index. -/
noncomputable def allFrags (n : ℕ) (offsets : List (ℝ × ℝ)) (p : ℝ × ℝ) :
    List ((ℝ × ℝ × ℝ) × ℝ) :=
  (List.range offsets.length).flatMap
    (fun k => (instDepths n (offsets.getD k (0, 0)) p).map (fun d => (instColor k, d)))

/-- Per-pixel framebuffer state: color attachment value and depth value. -/
structure Pix where
  color : ℝ × ℝ × ℝ
  depth : ℝ

/-- Modelled from the spec: the depth test with the backend's default
strict less-than comparison, applied to fragments in order.  A fragment
passes iff its depth is strictly below the stored depth, and then both the
color and the depth are written. -/
noncomputable def runFrags : List ((ℝ × ℝ × ℝ) × ℝ) → Pix → Pix
  | [], s => s
  | f :: fs, s => runFrags fs (if f.2 < s.depth then ⟨f.1, f.2⟩ else s)

/-- The clear color `(1, 1, 0)` of the offscreen pass (alpha dropped: the
color attachment is GL_RGB). -/
def clearColor3 : ℝ × ℝ × ℝ :=
  (1, 1, 0)

/-- Modelled from the spec: the final value of the offscreen color and
depth attachments at sample point `p` after the offscreen pass: clear color
`(1,1,0)`, clear depth `1`, then all cone fragments run through the depth
test. -/
noncomputable def renderPixel (n : ℕ) (offsets : List (ℝ × ℝ)) (p : ℝ × ℝ) : Pix :=
  runFrags (allFrags n offsets p) ⟨clearColor3, 1⟩

/-- The fullscreen quad built by `build_quad`. -/
def build_quad : List ℝ :=
  [-1, -1, 1, -1, 1, 1, -1, 1]

/-! ## Helper lemmas -/

/-- Rounding a normalized 8-bit channel recovers the integer channel. -/
theorem round_channel (m : ℕ) : round ((255 : ℝ) * ((m : ℝ) / 255)) = m := by
  have h : (255 : ℝ) * ((m : ℝ) / 255) = (m : ℝ) := by field_simp
  rw [h, round_natCast]

/-- Decoding the shader color of instance `k` recovers `k` when `k < 2^24`. -/
theorem decode_instColor (k : ℕ) (hk : k < 2 ^ 24) :
    decodeIndex (instColor k) = k := by
  unfold decodeIndex instColor
  rw [round_channel, round_channel, round_channel]
  omega

/-! ## Claim theorems -/

/-- C2: for every instance index `k < 2^24`, the normalized color encoding
`k ↦ (k % 256, k/256 % 256, k/65536 % 256) / 255` is injective and decoding
the three 8-bit channels recovers `k` exactly (round-trip identity). -/
theorem instColor_injective_roundtrip :
    (∀ k1 k2, k1 < 2 ^ 24 → k2 < 2 ^ 24 → instColor k1 = instColor k2 → k1 = k2) ∧
    (∀ k, k < 2 ^ 24 → decodeIndex (instColor k) = k) := by
  constructor
  · intro k1 k2 h1 h2 h
    have e1 := decode_instColor k1 h1
    have e2 := decode_instColor k2 h2
    rw [h, e2] at e1
    exact_mod_cast e1.symm
  · exact decode_instColor

/-- Witness for C2 at the concrete index 99 (one of the spec's round-trip
test values). -/
theorem instColor_injective_roundtrip_witness :
    99 < 2 ^ 24 ∧ decodeIndex (instColor 99) = 99 :=
  ⟨by norm_num, instColor_injective_roundtrip.2 99 (by norm_num)⟩

/-- C4 (amended): every component written by `build_instances` lies in the
closed interval `[-1, +1]` (the right endpoint is attained when `rand()`
returns `RAND_MAX`, so the half-open interval of the claim is wrong). -/
theorem build_instances_range (randv : ℕ → ℕ) (randMax n : ℕ)
    (hR : 0 < randMax) (hv : ∀ i, randv i ≤ randMax) :
    ∀ x ∈ buildInstancesBuf randv randMax n, -1 ≤ x ∧ x ≤ 1 := by
  intro x hx
  simp only [buildInstancesBuf, List.mem_map, List.mem_range] at hx
  obtain ⟨i, _, rfl⟩ := hx
  have hRpos : (0 : ℝ) < (randMax : ℝ) := by exact_mod_cast hR
  have h0 : (0 : ℝ) ≤ (randv i : ℝ) / (randMax : ℝ) :=
    div_nonneg (by positivity) hRpos.le
  have h1 : (randv i : ℝ) / (randMax : ℝ) ≤ 1 := by
    rw [div_le_one hRpos]
    exact_mod_cast hv i
  have h05 : (0.5 : ℝ) = 1 / 2 := by norm_num
  constructor <;> (rw [h05]; linarith)

/-- Witness for C4 (amended) with all calls to `rand` returning 0 and
`RAND_MAX = 32767`. -/
theorem build_instances_range_witness :
    0 < 32767 ∧ (∀ i : ℕ, (fun _ : ℕ => 0) i ≤ 32767) ∧
      (-1 ≤ ((((0 : ℕ) : ℝ)) / (32767 : ℕ) - 0.5) * 2 ∧
        ((((0 : ℕ) : ℝ)) / (32767 : ℕ) - 0.5) * 2 ≤ 1) :=
  ⟨by norm_num, fun _ => by norm_num,
    build_instances_range (fun _ => 0) 32767 1 (by norm_num) (fun _ => by norm_num)
      (((((0 : ℕ) : ℝ)) / (32767 : ℕ) - 0.5) * 2)
      (by simp [buildInstancesBuf])⟩

/-- C4 counterexample: when `rand()` returns `RAND_MAX = 32767`, the
generated component equals exactly `+1`, which does not lie in the
half-open interval `[-1, +1)` claimed by the spec. -/
theorem build_instances_range_cex :
    (buildInstancesBuf (fun _ => 32767) 32767 1)[0]? = some 1 ∧ ¬ ((1 : ℝ) < 1) := by
  constructor
  · simp [buildInstancesBuf]
    norm_num
  · norm_num

/-- C5 counterexample: on allocation failure neither geometry constructor
reaches a diagnostic-plus-exit path; both write through the null pointer
returned by `malloc` (the result of `malloc` is used unconditionally). -/
theorem alloc_failure_cex :
    buildConeRun false 64 = AllocRun.nullPtrWrite ∧
    buildInstancesRun false (fun _ => 0) 32767 100 = AllocRun.nullPtrWrite ∧
    AllocRun.nullPtrWrite.isFatalDiagExit = false :=
  ⟨rfl, rfl, rfl⟩

/-- C5 (amended): allocation failure during geometry construction is not
detected: `build_cone` and `build_instances` never test the `malloc`
result, so on failure they perform a null-pointer write with no stderr
diagnostic and no exit, and on success they proceed normally. -/
theorem alloc_failure_behavior (n : ℕ) (randv : ℕ → ℕ) (randMax : ℕ) :
    buildConeRun false n = AllocRun.nullPtrWrite ∧
    (buildConeRun false n).isFatalDiagExit = false ∧
    buildConeRun true n = AllocRun.ok (coneBuf n) ∧
    buildInstancesRun false randv randMax n = AllocRun.nullPtrWrite ∧
    (buildInstancesRun false randv randMax n).isFatalDiagExit = false ∧
    buildInstancesRun true randv randMax n =
      AllocRun.ok (buildInstancesBuf randv randMax n) :=
  ⟨rfl, rfl, rfl, rfl, rfl, rfl⟩

/-- C6: if compilation reports failure, `build_shader` emits to stderr the
diagnostic carrying the backend log and exits with the nonzero status
`-1`; if compilation succeeds it returns the shader handle; link failure in
`build_program` behaves the same way with the link log.  The emitted
diagnostic is itself nonempty for every log. -/
theorem build_shader_program_errors (handle : ℕ) (infoLog : String) :
    build_shader handle true infoLog = ShaderOutcome.ok handle ∧
    build_shader handle false infoLog =
      ShaderOutcome.fatalExit (shaderFailMsg infoLog) (-1) ∧
    build_program handle true infoLog = ShaderOutcome.ok handle ∧
    build_program handle false infoLog =
      ShaderOutcome.fatalExit (programFailMsg infoLog) (-1) ∧
    0 < (shaderFailMsg infoLog).length ∧
    0 < (programFailMsg infoLog).length ∧
    (-1 : ℤ) ≠ 0 := by
  refine ⟨rfl, rfl, rfl, rfl, ?_, ?_, by norm_num⟩
  · have h : (shaderFailMsg infoLog).length =
        "Error: shader failed with error ".length + infoLog.length + "\n".length := by
      simp [shaderFailMsg, String.length_append]
    have h1 : ("\n" : String).length = 1 := rfl
    have h2 : ("Error: shader failed with error " : String).length = 32 := rfl
    rw [h, h1, h2]
    omega
  · have h : (programFailMsg infoLog).length =
        "Error: linking failed with error ".length + infoLog.length + "\n".length := by
      simp [programFailMsg, String.length_append]
    have h1 : ("\n" : String).length = 1 := rfl
    have h2 : ("Error: linking failed with error " : String).length = 33 := rfl
    rw [h, h1, h2]
    omega

/-- C7: if completeness validation reports any status other than complete,
the program fails fatally with exit code `-1` and a diagnostic carrying the
reported status code; when the status is complete, startup proceeds with
the color and depth attachments both at viewport resolution `W x H`. -/
theorem framebuffer_check_spec (status : ℤ) (width height : ℕ) :
    (status ≠ GL_FRAMEBUFFER_COMPLETE →
      setupFramebuffer status width height = FBOutcome.fatalExit (fbFailMsg status) (-1) ∧
      fbFailMsg status = "Error: framebuffer is incomplete (" ++ toString status ++ ")\n" ∧
      (-1 : ℤ) ≠ 0) ∧
    (status = GL_FRAMEBUFFER_COMPLETE →
      setupFramebuffer status width height = FBOutcome.ok width height width height) := by
  constructor
  · intro h
    exact ⟨by simp [setupFramebuffer, h], rfl, by norm_num⟩
  · intro h
    simp [setupFramebuffer, h]

/-- Witness for C7: an incomplete status (36054) is fatal with the status
code in the diagnostic, and the complete status (36053) proceeds with
400 x 400 attachments. -/
theorem framebuffer_check_spec_witness :
    ((36054 : ℤ) ≠ GL_FRAMEBUFFER_COMPLETE ∧
      setupFramebuffer 36054 400 400 = FBOutcome.fatalExit (fbFailMsg 36054) (-1)) ∧
    ((36053 : ℤ) = GL_FRAMEBUFFER_COMPLETE ∧
      setupFramebuffer 36053 400 400 = FBOutcome.ok 400 400 400 400) :=
  ⟨⟨by decide, ((framebuffer_check_spec 36054 400 400).1 (by decide)).1⟩,
    ⟨by decide, (framebuffer_check_spec 36053 400 400).2 (by decide)⟩⟩

/-- C9 counterexample: two runs of `main` with different system entropy
(5 and 7) produce identical offset arrays, because `main` never calls
`srand` and the stream is the unseeded (`srand(1)`) stream in both runs;
had the entropy been used as the seed, the arrays would have differed. -/
theorem seed_entropy_cex :
    mainOffsets (fun s i => s + i) 32767 5 = mainOffsets (fun s i => s + i) 32767 7 ∧
    buildInstancesBuf (fun i => 5 + i) 32767 100 ≠
      buildInstancesBuf (fun i => 7 + i) 32767 100 := by
  constructor
  · rfl
  · intro h
    have h0 := congrArg (fun l => l[0]?) h
    simp only [buildInstancesBuf, List.getElem?_map,
      List.getElem?_range (by norm_num : 0 < 2 * 100)] at h0
    norm_num at h0

/-- C9 (amended): the pseudo-random source is never seeded (`srand` is
never called), so by the C standard the stream is the `srand(1)` stream;
two runs are reproducible: they yield identical offset arrays regardless
of the system entropy available to each run. -/
theorem seed_deterministic (rng : ℕ → ℕ → ℕ) (randMax e1 e2 : ℕ) :
    mainSeed e1 = 1 ∧ mainSeed e2 = 1 ∧
    mainOffsets rng randMax e1 = mainOffsets rng randMax e2 :=
  ⟨rfl, rfl, rfl⟩

/-- C10: every heap write of `build_cone` is in bounds of its
`(n+2)*3`-float allocation, the last allocated element `3*(n+2)-1` is
written, and `build_instances` writes exactly the indices
`0 .. 2n-1` of its `n*2`-float allocation. -/
theorem geometry_writes_in_bounds (n : ℕ) (hn : 1 ≤ n) :
    (∀ idx ∈ coneWriteIndices n, idx < coneAllocFloats n) ∧
    (3 * (n + 2) - 1) ∈ coneWriteIndices n ∧
    coneAllocFloats n = 3 * (n + 2) ∧
    instWriteIndices n = List.range (instAllocFloats n) := by
  refine ⟨?_, ?_, by simp [coneAllocFloats]; ring, ?_⟩
  · intro idx h
    simp only [coneWriteIndices, List.mem_append, List.mem_cons, List.mem_flatMap,
      List.mem_range, List.not_mem_nil, or_false, coneAllocFloats] at h ⊢
    rcases h with h | h | h | ⟨i, hi, h | h | h | h⟩ <;> omega
  · simp only [coneWriteIndices, List.mem_append, List.mem_cons, List.mem_flatMap,
      List.mem_range, List.not_mem_nil, or_false]
    exact Or.inr ⟨n, by omega, Or.inr (Or.inr (by omega))⟩
  · simp [instWriteIndices, instAllocFloats, Nat.mul_comm]

/-- C3: `build_cone(n)` (for `n ≥ 3`) produces a triangle-fan buffer of
exactly `n + 2` vertices (the flat float buffer is their concatenation);
vertex 0 is the apex `(0, 0, -1)`; vertices `1 .. n+1` are the base ring
`(cos (2*pi*i/n), sin (2*pi*i/n), 1)` for `i = 0 .. n`; every ring vertex
has `z = 1`; and the first and last ring vertices are equal (exactly, in
the real-number model, since `cos 0 = cos (2*pi)` and `sin 0 = sin (2*pi)`). -/
theorem build_cone_spec (n : ℕ) (hn : 3 ≤ n) :
    (coneVerts n).length = n + 2 ∧
    coneBuf n = (coneVerts n).flatMap (fun v => [v.1, v.2.1, v.2.2]) ∧
    (coneVerts n)[0]? = some ((0 : ℝ), (0 : ℝ), (-1 : ℝ)) ∧
    (∀ i, i ≤ n → (coneVerts n)[i + 1]? =
      some (Real.cos (2 * Real.pi * i / n), Real.sin (2 * Real.pi * i / n), (1 : ℝ))) ∧
    (∀ i, i ≤ n → ∀ v : ℝ × ℝ × ℝ, (coneVerts n)[i + 1]? = some v → v.2.2 = 1) ∧
    (coneVerts n)[1]? = (coneVerts n)[n + 1]? := by
  have hring : ∀ i, i ≤ n → (coneVerts n)[i + 1]? = some (ringV n i) := by
    intro i hi
    simp [coneVerts, List.getElem?_map, List.getElem?_range (show i < n + 1 by omega)]
  refine ⟨?_, ?_, ?_, ?_, ?_, ?_⟩
  · simp [coneVerts]
  · simp [coneBuf, coneVerts, apexV, ringV, theta, List.flatMap_map, Function.comp]
  · simp [coneVerts, apexV]
  · intro i hi
    rw [hring i hi]
    simp [ringV, theta]
  · intro i hi v hv
    rw [hring i hi] at hv
    simp only [Option.some.injEq] at hv
    rw [← hv]
    simp [ringV]
  · have h1 := hring 0 (by omega)
    have h2 := hring n le_rfl
    rw [show (1 : ℕ) = 0 + 1 by rfl] at h1
    rw [h1, h2]
    have hn0 : (n : ℝ) ≠ 0 := Nat.cast_ne_zero.mpr (by omega)
    have ht0 : theta n 0 = 0 := by simp [theta]
    have htn : theta n n = 2 * Real.pi := by
      rw [theta]
      field_simp
    simp [ringV, ht0, htn, Real.cos_two_pi, Real.sin_two_pi]

/-- Witness for C3 at `n = 3`. -/
theorem build_cone_spec_witness :
    3 ≤ 3 ∧
    ((coneVerts 3).length = 3 + 2 ∧
      coneBuf 3 = (coneVerts 3).flatMap (fun v => [v.1, v.2.1, v.2.2]) ∧
      (coneVerts 3)[0]? = some ((0 : ℝ), (0 : ℝ), (-1 : ℝ)) ∧
      (∀ i : ℕ, i ≤ 3 → (coneVerts 3)[i + 1]? =
        some (Real.cos (2 * Real.pi * i / ((3 : ℕ) : ℝ)),
          Real.sin (2 * Real.pi * i / ((3 : ℕ) : ℝ)), (1 : ℝ))) ∧
      (∀ i : ℕ, i ≤ 3 → ∀ v : ℝ × ℝ × ℝ, (coneVerts 3)[i + 1]? = some v → v.2.2 = 1) ∧
      (coneVerts 3)[1]? = (coneVerts 3)[3 + 1]?) :=
  ⟨by norm_num, build_cone_spec 3 (by norm_num)⟩

/-- Helper: counting a predicate over a replicated list. -/
theorem countP_replicate (p : Ev → Bool) (a : Ev) (k : ℕ) :
    (List.replicate k a).countP p = if p a then k else 0 := by
  induction k with
  | zero => simp
  | succ m ih =>
    rw [List.replicate_succ, List.countP_cons, ih]
    by_cases hp : p a = true <;> simp [hp]

/-- Helper: the present loop runs until the first close signal at or after
its start index, emitting one present event per iteration, and then exits
with code 0. -/
theorem mainLoop_spec (close : ℕ → Bool) :
    ∀ fuel i, (∃ t, i ≤ t ∧ t < i + fuel ∧ close t = true) →
      ∃ k, k < fuel ∧ (∀ j, j < k → close (i + j) = false) ∧ close (i + k) = true ∧
        mainLoop close fuel i = (List.replicate k presentEv, some 0) := by
  intro fuel
  induction fuel with
  | zero =>
    intro i h
    obtain ⟨t, h1, h2, _⟩ := h
    omega
  | succ m ih =>
    intro i h
    by_cases hc : close i = true
    · refine ⟨0, by omega, fun j hj => absurd hj (by omega), by simpa using hc, ?_⟩
      simp [mainLoop, hc]
    · have hci : close i = false := by
        simpa using hc
      obtain ⟨t, h1, h2, h3⟩ := h
      have htne : t ≠ i := by
        intro he
        rw [he] at h3
        rw [h3] at hci
        cases hci
      obtain ⟨k, hk1, hk2, hk3, hk4⟩ := ih (i + 1) ⟨t, by omega, by omega, h3⟩
      refine ⟨k + 1, by omega, ?_, ?_, ?_⟩
      · intro j hj
        cases j with
        | zero => simpa using hci
        | succ j2 =>
          have hcl := hk2 j2 (by omega)
          rw [show i + (j2 + 1) = i + 1 + j2 by omega]
          exact hcl
      · rw [show i + (k + 1) = i + 1 + k by omega]
        exact hk3
      · rw [show mainLoop close (m + 1) i =
            (presentEv :: (mainLoop close m (i + 1)).1, (mainLoop close m (i + 1)).2) by
          simp [mainLoop, hci]]
        rw [hk4, List.replicate_succ]

/-- C8: the offscreen pass (clear color `(1,1,0,1)`, clear depth 1, depth
test enabled, one instanced triangle-fan draw of `64 + 2` vertices and
`100` instances) executes exactly once at startup and never again; the
present pass (clear `(0,0,0,1)`, depth 1, one 4-vertex fan draw, swap)
executes once per frame until the window requests close, after which the
process returns exit code 0. -/
theorem frame_loop_spec (close : ℕ → Bool) (T fuel : ℕ)
    (hT : close T = true) (hfuel : T < fuel) :
    ∃ k, k ≤ T ∧ (∀ j, j < k → close j = false) ∧ close k = true ∧
      mainTrace close fuel =
        (Ev.offscreen 1 1 0 1 1 true (64 + 2) 100 :: List.replicate k presentEv, some 0) ∧
      (mainTrace close fuel).1.countP Ev.isOffscreen = 1 ∧
      (mainTrace close fuel).1.countP (fun e => ! e.isOffscreen) = k := by
  obtain ⟨k, hk1, hk2, hk3, hk4⟩ := mainLoop_spec close fuel 0 ⟨T, by omega, by omega, hT⟩
  have hkT : k ≤ T := by
    by_contra hlt
    push_neg at hlt
    have := hk2 T (by omega)
    rw [Nat.zero_add] at this
    rw [hT] at this
    cases this
  have htr : mainTrace close fuel =
      (Ev.offscreen 1 1 0 1 1 true (64 + 2) 100 :: List.replicate k presentEv, some 0) := by
    simp [mainTrace, hk4, render_voronoi_ev]
  refine ⟨k, hkT, fun j hj => by simpa using hk2 j hj, by simpa using hk3, htr, ?_, ?_⟩
  · rw [htr]
    simp [List.countP_cons, countP_replicate, Ev.isOffscreen, presentEv]
  · rw [htr]
    simp [List.countP_cons, countP_replicate, Ev.isOffscreen, presentEv]

/-- Witness for C8 with the close signal raised at the first poll. -/
theorem frame_loop_spec_witness :
    (fun _ : ℕ => true) 0 = true ∧ 0 < 1 ∧
    (∃ k, k ≤ 0 ∧ (∀ j, j < k → (fun _ : ℕ => true) j = false) ∧
      (fun _ : ℕ => true) k = true ∧
      mainTrace (fun _ : ℕ => true) 1 =
        (Ev.offscreen 1 1 0 1 1 true (64 + 2) 100 :: List.replicate k presentEv, some 0) ∧
      (mainTrace (fun _ : ℕ => true) 1).1.countP Ev.isOffscreen = 1 ∧
      (mainTrace (fun _ : ℕ => true) 1).1.countP (fun e => ! e.isOffscreen) = k) :=
  ⟨rfl, by norm_num, frame_loop_spec (fun _ => true) 0 1 rfl (by norm_num)⟩

/-- Witness for C10 at `n = 1`. -/
theorem geometry_writes_in_bounds_witness :
    1 ≤ 1 ∧
    ((∀ idx ∈ coneWriteIndices 1, idx < coneAllocFloats 1) ∧
      (3 * (1 + 2) - 1) ∈ coneWriteIndices 1 ∧
      coneAllocFloats 1 = 3 * (1 + 2) ∧
      instWriteIndices 1 = List.range (instAllocFloats 1)) :=
  ⟨by norm_num, geometry_writes_in_bounds 1 (by norm_num)⟩

/-! ## Geometry helper lemmas for the rasterization model -/

/-- Sum-to-product identity for sines. -/
theorem sin_add_sin2 (a b : ℝ) :
    Real.sin a + Real.sin b = 2 * Real.sin ((a + b) / 2) * Real.cos ((a - b) / 2) := by
  have ha : a = (a + b) / 2 + (a - b) / 2 := by ring
  have hb : b = (a + b) / 2 - (a - b) / 2 := by ring
  rw [ha, hb, Real.sin_add, Real.sin_sub]
  ring_nf

/-- For `n ≥ 3` the half ring angle `pi / n` is below `pi / 2`. -/
theorem pi_div_lt_half (n : ℕ) (hn : 3 ≤ n) : Real.pi / n < Real.pi / 2 := by
  have hpi := Real.pi_pos
  have hn3 : (3 : ℝ) ≤ (n : ℝ) := by exact_mod_cast hn
  rw [div_lt_div_iff (by linarith) (by norm_num)]
  nlinarith

/-- For `n ≥ 3` the cosine of `pi / n` is positive. -/
theorem cos_pi_div_pos (n : ℕ) (hn : 3 ≤ n) : 0 < Real.cos (Real.pi / n) := by
  have hpi := Real.pi_pos
  have hn3 : (3 : ℝ) ≤ (n : ℝ) := by exact_mod_cast hn
  have h0 : (0 : ℝ) < Real.pi / n := div_pos hpi (by linarith)
  exact Real.cos_pos_of_mem_Ioo ⟨by linarith, pi_div_lt_half n hn⟩

/-- For `n ≥ 3` the sine of `pi / n` is positive. -/
theorem sin_pi_div_pos (n : ℕ) (hn : 3 ≤ n) : 0 < Real.sin (Real.pi / n) := by
  have hpi := Real.pi_pos
  have hn3 : (3 : ℝ) ≤ (n : ℝ) := by exact_mod_cast hn
  exact Real.sin_pos_of_pos_of_lt_pi (by positivity) (by
    have := pi_div_lt_half n hn
    linarith)

/-- Polar decomposition of a nonzero plane vector with angle in `[0, 2*pi)`. -/
theorem exists_polar (v : ℝ × ℝ) (hv : v ≠ 0) :
    ∃ φ, 0 ≤ φ ∧ φ < 2 * Real.pi ∧
      v.1 = norm2 v * Real.cos φ ∧ v.2 = norm2 v * Real.sin φ := by
  have hpi := Real.pi_pos
  set z : ℂ := ⟨v.1, v.2⟩ with hz
  have hz0 : z ≠ 0 := by
    intro h
    apply hv
    have h1 : v.1 = 0 := congrArg Complex.re h
    have h2 : v.2 = 0 := congrArg Complex.im h
    exact Prod.ext h1 h2
  have habs : Complex.abs z = norm2 v := by
    rw [Complex.abs_apply, hz, Complex.normSq_mk, norm2]
    congr 1
    ring
  have habs0 : Complex.abs z ≠ 0 := Complex.abs.ne_zero hz0
  have hre : v.1 = Complex.abs z * Real.cos z.arg := by
    rw [Complex.cos_arg hz0]
    field_simp
  have him : v.2 = Complex.abs z * Real.sin z.arg := by
    rw [Complex.sin_arg]
    field_simp
  rcases le_or_lt 0 z.arg with h | h
  · refine ⟨z.arg, h, lt_of_le_of_lt (Complex.arg_le_pi z) (by linarith), ?_, ?_⟩
    · rw [← habs]; exact hre
    · rw [← habs]; exact him
  · have hgt := Complex.neg_pi_lt_arg z
    refine ⟨z.arg + 2 * Real.pi, by linarith, by linarith, ?_, ?_⟩
    · rw [Real.cos_add_two_pi, ← habs]; exact hre
    · rw [Real.sin_add_two_pi, ← habs]; exact him

/-- Every angle in `[0, 2*pi)` falls in some fan wedge `[theta i, theta (i+1)]`. -/
theorem wedge_cover (n : ℕ) (hn : 1 ≤ n) (φ : ℝ) (h0 : 0 ≤ φ) (h2 : φ < 2 * Real.pi) :
    ∃ i, i < n ∧ theta n i ≤ φ ∧ φ ≤ theta n (i + 1) := by
  have hpi := Real.pi_pos
  have hn0 : (0 : ℝ) < (n : ℝ) := by exact_mod_cast hn
  set t : ℝ := φ * n / (2 * Real.pi) with ht
  have ht0 : 0 ≤ t := by positivity
  have htn : t < n := by
    rw [ht, div_lt_iff (by positivity)]
    calc φ * (n : ℝ) < 2 * Real.pi * n := mul_lt_mul_of_pos_right h2 hn0
    _ = (n : ℝ) * (2 * Real.pi) := by ring
  set i : ℕ := (⌊t⌋).toNat with hi
  have hfl0 : 0 ≤ ⌊t⌋ := Int.floor_nonneg.mpr ht0
  have hic : (i : ℝ) = ((⌊t⌋ : ℤ) : ℝ) := by
    rw [hi]
    exact_mod_cast congrArg (fun x : ℤ => (x : ℝ)) (Int.toNat_of_nonneg hfl0)
  have h1 : (i : ℝ) ≤ t := by rw [hic]; exact Int.floor_le t
  have h2i : t < (i : ℝ) + 1 := by
    rw [hic]
    exact_mod_cast Int.lt_floor_add_one t
  have hilt : i < n := by
    by_contra hge
    push_neg at hge
    have : (n : ℝ) ≤ (i : ℝ) := by exact_mod_cast hge
    linarith
  refine ⟨i, hilt, ?_, ?_⟩
  · rw [theta, div_le_iff hn0]
    have hstep := mul_le_mul_of_nonneg_right h1 (by positivity : (0 : ℝ) ≤ 2 * Real.pi)
    calc 2 * Real.pi * (i : ℝ) = (i : ℝ) * (2 * Real.pi) := by ring
    _ ≤ t * (2 * Real.pi) := hstep
    _ = φ * n := by rw [ht]; field_simp
  · rw [theta, le_div_iff hn0]
    push_cast
    have hstep := mul_le_mul_of_nonneg_right (le_of_lt h2i) (by positivity : (0 : ℝ) ≤ 2 * Real.pi)
    calc φ * (n : ℝ) = t * (2 * Real.pi) := by rw [ht]; field_simp
    _ ≤ ((i : ℝ) + 1) * (2 * Real.pi) := hstep
    _ = 2 * Real.pi * ((i : ℝ) + 1) := by ring

/-- Rasterization is invariant under a common translation of the triangle
and the sample point (the vertex-shader offset can be moved to the sample). -/
theorem tri_raster_translate (a b c : ℝ × ℝ × ℝ) (o p : ℝ × ℝ) :
    tri_raster (a.1 + o.1, a.2.1 + o.2, a.2.2) (b.1 + o.1, b.2.1 + o.2, b.2.2)
      (c.1 + o.1, c.2.1 + o.2, c.2.2) p = tri_raster a b c (p.1 - o.1, p.2 - o.2) := by
  have hdet :
      cross2 (xy (b.1 + o.1, b.2.1 + o.2, b.2.2) - xy (a.1 + o.1, a.2.1 + o.2, a.2.2))
        (xy (c.1 + o.1, c.2.1 + o.2, c.2.2) - xy (a.1 + o.1, a.2.1 + o.2, a.2.2)) =
      cross2 (xy b - xy a) (xy c - xy a) := by
    simp only [cross2, xy, Prod.fst_sub, Prod.snd_sub]
    ring
  have hb1 : bary1 (a.1 + o.1, a.2.1 + o.2, a.2.2) (b.1 + o.1, b.2.1 + o.2, b.2.2)
      (c.1 + o.1, c.2.1 + o.2, c.2.2) p = bary1 a b c (p.1 - o.1, p.2 - o.2) := by
    simp only [bary1, cross2, xy, Prod.fst_sub, Prod.snd_sub]
    ring_nf
  have hb2 : bary2 (a.1 + o.1, a.2.1 + o.2, a.2.2) (b.1 + o.1, b.2.1 + o.2, b.2.2)
      (c.1 + o.1, c.2.1 + o.2, c.2.2) p = bary2 a b c (p.1 - o.1, p.2 - o.2) := by
    simp only [bary2, cross2, xy, Prod.fst_sub, Prod.snd_sub]
    ring_nf
  unfold tri_raster
  rw [hdet, hb1, hb2]

/-- Fan rasterization is invariant under a common translation. -/
theorem fanFrags_translate (verts : List (ℝ × ℝ × ℝ)) (o p : ℝ × ℝ) :
    fanFrags (verts.map (fun v => (v.1 + o.1, v.2.1 + o.2, v.2.2))) p =
      fanFrags verts (p.1 - o.1, p.2 - o.2) := by
  cases verts with
  | nil => rfl
  | cons v0 rest =>
    simp only [List.map_cons, fanFrags]
    rw [← List.map_tail, List.zip_map, List.filterMap_map]
    congr 1
    funext bc
    exact tri_raster_translate v0 bc.1 bc.2 o p

/-- Unpacking a produced fragment into its barycentric facts. -/
theorem tri_raster_some (a b c : ℝ × ℝ × ℝ) (p : ℝ × ℝ) (d : ℝ)
    (h : tri_raster a b c p = some d) :
    cross2 (xy b - xy a) (xy c - xy a) ≠ 0 ∧
    0 ≤ 1 - bary1 a b c p - bary2 a b c p ∧ 0 ≤ bary1 a b c p ∧ 0 ≤ bary2 a b c p ∧
    d = (1 - bary1 a b c p - bary2 a b c p) * a.2.2 + bary1 a b c p * b.2.2
      + bary2 a b c p * c.2.2 := by
  unfold tri_raster at h
  by_cases h1 : cross2 (xy b - xy a) (xy c - xy a) = 0
  · rw [if_pos h1] at h
    exact absurd h (by simp)
  · rw [if_neg h1] at h
    by_cases h2 : 0 ≤ 1 - bary1 a b c p - bary2 a b c p ∧
        0 ≤ bary1 a b c p ∧ 0 ≤ bary2 a b c p
    · rw [if_pos h2] at h
      exact ⟨h1, h2.1, h2.2.1, h2.2.2, (Option.some.inj h).symm⟩
    · rw [if_neg h2] at h
      exact absurd h (by simp)

/-- Cramer reconstruction: the barycentric coordinates recombine to `p`. -/
theorem bary_reconstruct (a b c : ℝ × ℝ × ℝ) (p : ℝ × ℝ)
    (hdet : cross2 (xy b - xy a) (xy c - xy a) ≠ 0) :
    p.1 - a.1 = bary1 a b c p * (b.1 - a.1) + bary2 a b c p * (c.1 - a.1) ∧
    p.2 - a.2.1 = bary1 a b c p * (b.2.1 - a.2.1) + bary2 a b c p * (c.2.1 - a.2.1) := by
  simp only [bary1, bary2, cross2, xy, Prod.fst_sub, Prod.snd_sub] at hdet ⊢
  constructor
  · field_simp
    ring
  · field_simp
    ring

/-- A fragment of an apex-at-origin cone triangle with unit ring vertices:
its depth is at least `2 * dist - 1`, at most `1`, and the sample lies in
the closed unit disk. -/
theorem cone_frag_bounds (b c : ℝ × ℝ × ℝ) (v : ℝ × ℝ) (d : ℝ)
    (hb : b.1 ^ 2 + b.2.1 ^ 2 = 1) (hc : c.1 ^ 2 + c.2.1 ^ 2 = 1)
    (hbz : b.2.2 = 1) (hcz : c.2.2 = 1)
    (h : tri_raster apexV b c v = some d) :
    2 * norm2 v - 1 ≤ d ∧ d ≤ 1 ∧ norm2 v ≤ 1 := by
  obtain ⟨hdet, h0, h1, h2, hd⟩ := tri_raster_some apexV b c v d h
  obtain ⟨hx, hy⟩ := bary_reconstruct apexV b c v hdet
  set l1 := bary1 apexV b c v with hl1
  set l2 := bary2 apexV b c v with hl2
  have hvx : v.1 = l1 * b.1 + l2 * c.1 := by
    have : apexV.1 = 0 := rfl
    rw [this] at hx
    linarith [hx]
  have hvy : v.2 = l1 * b.2.1 + l2 * c.2.1 := by
    have : apexV.2.1 = 0 := rfl
    rw [this] at hy
    linarith [hy]
  have hdval : d = 2 * (l1 + l2) - 1 := by
    rw [hd, hbz, hcz]
    have : apexV.2.2 = -1 := rfl
    rw [this]
    ring
  have hip : b.1 * c.1 + b.2.1 * c.2.1 ≤ 1 := by
    nlinarith [sq_nonneg (b.1 - c.1), sq_nonneg (b.2.1 - c.2.1)]
  have hkey : 0 ≤ l1 * l2 * (1 - (b.1 * c.1 + b.2.1 * c.2.1)) :=
    mul_nonneg (mul_nonneg h1 h2) (by linarith)
  have hsq : v.1 ^ 2 + v.2 ^ 2 ≤ (l1 + l2) ^ 2 := by
    rw [hvx, hvy]
    have expand : (l1 * b.1 + l2 * c.1) ^ 2 + (l1 * b.2.1 + l2 * c.2.1) ^ 2
        = l1 ^ 2 * (b.1 ^ 2 + b.2.1 ^ 2) + l2 ^ 2 * (c.1 ^ 2 + c.2.1 ^ 2)
          + 2 * l1 * l2 * (b.1 * c.1 + b.2.1 * c.2.1) := by ring
    rw [expand, hb, hc]
    nlinarith [hkey]
  have hnorm : norm2 v ≤ l1 + l2 := by
    rw [norm2]
    calc Real.sqrt (v.1 ^ 2 + v.2 ^ 2) ≤ Real.sqrt ((l1 + l2) ^ 2) :=
      Real.sqrt_le_sqrt hsq
    _ = l1 + l2 := Real.sqrt_sq (by linarith)
  refine ⟨by linarith, by linarith, by linarith⟩

/-- The `i`-th fan pair of the cone ring is indeed
`(ringV n i, ringV n (i+1))`. -/
theorem fan_pair_mem (n i : ℕ) (hi : i < n) :
    (ringV n i, ringV n (i + 1)) ∈
      (((List.range (n + 1)).map (ringV n)).zip
        (((List.range (n + 1)).map (ringV n)).tail)) := by
  set ring : List (ℝ × ℝ × ℝ) := (List.range (n + 1)).map (ringV n) with hring
  have hlen : ring.length = n + 1 := by simp [hring]
  have hzl : (ring.zip ring.tail).length = n := by
    simp [List.length_zip, hlen]
  have hibound : i < (ring.zip ring.tail).length := by omega
  have hval : (ring.zip ring.tail)[i] = (ringV n i, ringV n (i + 1)) := by
    rw [List.getElem_zip, List.getElem_tail]
    simp [hring, List.getElem_map, List.getElem_range]
  rw [← hval]
  exact List.getElem_mem hibound

/-- Coverage of one fan triangle: for a sample within the inscribed radius
`cos (pi/n)` of the cone apex whose polar angle lies in wedge `i`, the
triangle produces a fragment, and its depth is at most
`2 * dist / cos (pi/n) - 1`. -/
theorem cone_tri_cover (n i : ℕ) (hn : 3 ≤ n) (_hi : i < n) (ρ φ : ℝ)
    (hρ0 : 0 ≤ ρ) (hρc : ρ ≤ Real.cos (Real.pi / n))
    (hφ1 : theta n i ≤ φ) (hφ2 : φ ≤ theta n (i + 1)) :
    ∃ d, tri_raster apexV (ringV n i) (ringV n (i + 1)) (ρ * Real.cos φ, ρ * Real.sin φ)
        = some d ∧ d ≤ 2 * ρ / Real.cos (Real.pi / n) - 1 := by
  have hpi := Real.pi_pos
  have hn3 : (3 : ℝ) ≤ (n : ℝ) := by exact_mod_cast hn
  have hn0 : (0 : ℝ) < (n : ℝ) := by linarith
  have hcos := cos_pi_div_pos n hn
  have hsin := sin_pi_div_pos n hn
  have hgap : theta n (i + 1) - theta n i = 2 * Real.pi / n := by
    rw [theta, theta]
    push_cast
    field_simp
    ring
  have h2s : Real.sin (2 * Real.pi / n)
      = 2 * Real.sin (Real.pi / n) * Real.cos (Real.pi / n) := by
    rw [show 2 * Real.pi / (n : ℝ) = 2 * (Real.pi / n) by ring, Real.sin_two_mul]
  have hsin2 : 0 < Real.sin (2 * Real.pi / n) := by
    rw [h2s]
    positivity
  have h2le : 2 * Real.pi / n ≤ Real.pi := by
    rw [div_le_iff hn0]
    nlinarith
  have hdet : cross2 (xy (ringV n i) - xy apexV) (xy (ringV n (i + 1)) - xy apexV)
      = Real.sin (2 * Real.pi / n) := by
    simp only [cross2, xy, ringV, apexV, Prod.fst_sub, Prod.snd_sub]
    rw [← hgap, Real.sin_sub]
    ring
  set v : ℝ × ℝ := (ρ * Real.cos φ, ρ * Real.sin φ) with hv
  have hb1 : bary1 apexV (ringV n i) (ringV n (i + 1)) v
      = ρ * Real.sin (theta n (i + 1) - φ) / Real.sin (2 * Real.pi / n) := by
    rw [bary1, hdet]
    congr 1
    simp only [cross2, xy, ringV, apexV, Prod.fst_sub, Prod.snd_sub, hv]
    rw [Real.sin_sub]
    ring
  have hb2 : bary2 apexV (ringV n i) (ringV n (i + 1)) v
      = ρ * Real.sin (φ - theta n i) / Real.sin (2 * Real.pi / n) := by
    rw [bary2, hdet]
    congr 1
    simp only [cross2, xy, ringV, apexV, Prod.fst_sub, Prod.snd_sub, hv]
    rw [Real.sin_sub]
    ring
  have hA0 : 0 ≤ theta n (i + 1) - φ := by linarith
  have hAle : theta n (i + 1) - φ ≤ 2 * Real.pi / n := by linarith [hgap]
  have hB0 : 0 ≤ φ - theta n i := by linarith
  have hBle : φ - theta n i ≤ 2 * Real.pi / n := by linarith [hgap]
  have hsinA : 0 ≤ Real.sin (theta n (i + 1) - φ) :=
    Real.sin_nonneg_of_nonneg_of_le_pi hA0 (by linarith)
  have hsinB : 0 ≤ Real.sin (φ - theta n i) :=
    Real.sin_nonneg_of_nonneg_of_le_pi hB0 (by linarith)
  have hl1 : 0 ≤ bary1 apexV (ringV n i) (ringV n (i + 1)) v := by
    rw [hb1]
    exact div_nonneg (mul_nonneg hρ0 hsinA) hsin2.le
  have hl2 : 0 ≤ bary2 apexV (ringV n i) (ringV n (i + 1)) v := by
    rw [hb2]
    exact div_nonneg (mul_nonneg hρ0 hsinB) hsin2.le
  have hsumid : Real.sin (theta n (i + 1) - φ) + Real.sin (φ - theta n i)
      = 2 * Real.sin (Real.pi / n)
        * Real.cos ((theta n (i + 1) + theta n i) / 2 - φ) := by
    rw [sin_add_sin2]
    rw [show (theta n (i + 1) - φ + (φ - theta n i)) / 2 = Real.pi / n from by
      rw [show theta n (i + 1) - φ + (φ - theta n i)
          = theta n (i + 1) - theta n i from by ring, hgap]
      ring]
    rw [show (theta n (i + 1) - φ - (φ - theta n i)) / 2
        = (theta n (i + 1) + theta n i) / 2 - φ from by ring]
  have hsum : bary1 apexV (ringV n i) (ringV n (i + 1)) v
      + bary2 apexV (ringV n i) (ringV n (i + 1)) v ≤ ρ / Real.cos (Real.pi / n) := by
    rw [hb1, hb2, div_add_div_same]
    rw [show ρ * Real.sin (theta n (i + 1) - φ) + ρ * Real.sin (φ - theta n i)
        = ρ * (Real.sin (theta n (i + 1) - φ) + Real.sin (φ - theta n i)) from by ring]
    rw [hsumid, h2s]
    rw [div_le_div_iff (by rw [← h2s]; exact hsin2) hcos]
    have hδ : Real.cos ((theta n (i + 1) + theta n i) / 2 - φ) ≤ 1 := Real.cos_le_one _
    have hprod : 0 ≤ ρ * Real.sin (Real.pi / n) * Real.cos (Real.pi / n)
        * (1 - Real.cos ((theta n (i + 1) + theta n i) / 2 - φ)) :=
      mul_nonneg (mul_nonneg (mul_nonneg hρ0 hsin.le) hcos.le) (by linarith)
    nlinarith [hprod]
  have hl0 : 0 ≤ 1 - bary1 apexV (ringV n i) (ringV n (i + 1)) v
      - bary2 apexV (ringV n i) (ringV n (i + 1)) v := by
    have hρ1 : ρ / Real.cos (Real.pi / n) ≤ 1 := (div_le_one hcos).mpr hρc
    linarith [hsum]
  refine ⟨(1 - bary1 apexV (ringV n i) (ringV n (i + 1)) v
      - bary2 apexV (ringV n i) (ringV n (i + 1)) v) * apexV.2.2
      + bary1 apexV (ringV n i) (ringV n (i + 1)) v * (ringV n i).2.2
      + bary2 apexV (ringV n i) (ringV n (i + 1)) v * (ringV n (i + 1)).2.2, ?_, ?_⟩
  · unfold tri_raster
    rw [if_neg (by rw [hdet]; exact hsin2.ne'), if_pos ⟨hl0, hl1, hl2⟩]
  · have hz1 : (ringV n i).2.2 = 1 := rfl
    have hz2 : (ringV n (i + 1)).2.2 = 1 := rfl
    have hz0 : apexV.2.2 = -1 := rfl
    rw [hz1, hz2, hz0]
    have h2ρ : 2 * ρ / Real.cos (Real.pi / n) = 2 * (ρ / Real.cos (Real.pi / n)) := by
      ring
    rw [h2ρ]
    linarith [hsum]

/-- Coverage of the whole cone: a sample within the inscribed radius
`cos (pi/n)` of the apex receives a fragment of depth at most
`2 * dist / cos (pi/n) - 1`. -/
theorem cone_cover (n : ℕ) (hn : 3 ≤ n) (v : ℝ × ℝ)
    (hv : norm2 v ≤ Real.cos (Real.pi / n)) :
    ∃ d ∈ fanFrags (coneVerts n) v, d ≤ 2 * norm2 v / Real.cos (Real.pi / n) - 1 := by
  have hρ0 : 0 ≤ norm2 v := Real.sqrt_nonneg _
  have hpi := Real.pi_pos
  obtain ⟨φ, hφ0, hφ2π, hvx, hvy⟩ : ∃ φ, 0 ≤ φ ∧ φ < 2 * Real.pi ∧
      v.1 = norm2 v * Real.cos φ ∧ v.2 = norm2 v * Real.sin φ := by
    by_cases hv0 : v = 0
    · refine ⟨0, le_refl 0, by linarith, ?_, ?_⟩
      · rw [hv0]
        simp [norm2]
      · rw [hv0]
        simp [norm2]
    · exact exists_polar v hv0
  obtain ⟨i, hi, hw1, hw2⟩ := wedge_cover n (by omega) φ hφ0 hφ2π
  obtain ⟨d, hsome, hdle⟩ := cone_tri_cover n i hn hi (norm2 v) φ hρ0 hv hw1 hw2
  have hveq : v = (norm2 v * Real.cos φ, norm2 v * Real.sin φ) := Prod.ext hvx hvy
  rw [← hveq] at hsome
  refine ⟨d, ?_, hdle⟩
  show d ∈ fanFrags (coneVerts n) v
  rw [show fanFrags (coneVerts n) v
      = ((((List.range (n + 1)).map (ringV n)).zip
          (((List.range (n + 1)).map (ringV n)).tail)).filterMap
          (fun bc => tri_raster apexV bc.1 bc.2 v)) from rfl]
  rw [List.mem_filterMap]
  exact ⟨(ringV n i, ringV n (i + 1)), fan_pair_mem n i hi, hsome⟩

/-- Coverage of a cone instance, phrased on the untranslated sample point. -/
theorem instDepth_cover (n : ℕ) (off p : ℝ × ℝ) (hn : 3 ≤ n)
    (h : dist2 p off ≤ Real.cos (Real.pi / n)) :
    ∃ d ∈ instDepths n off p, d ≤ 2 * dist2 p off / Real.cos (Real.pi / n) - 1 := by
  unfold instDepths instVerts
  rw [fanFrags_translate]
  exact cone_cover n hn (p.1 - off.1, p.2 - off.2) h

/-- Every fragment of a cone instance has depth at least
`2 * dist(p, off) - 1` and at most 1. -/
theorem instDepths_lb (n : ℕ) (off p : ℝ × ℝ) (d : ℝ)
    (hd : d ∈ instDepths n off p) :
    2 * dist2 p off - 1 ≤ d ∧ d ≤ 1 := by
  unfold instDepths instVerts at hd
  rw [fanFrags_translate] at hd
  rw [show fanFrags (coneVerts n) (p.1 - off.1, p.2 - off.2)
      = ((((List.range (n + 1)).map (ringV n)).zip
          (((List.range (n + 1)).map (ringV n)).tail)).filterMap
          (fun bc => tri_raster apexV bc.1 bc.2 (p.1 - off.1, p.2 - off.2))) from rfl] at hd
  rw [List.mem_filterMap] at hd
  obtain ⟨bc, hmem, hsome⟩ := hd
  obtain ⟨hbm, hcm⟩ := List.of_mem_zip (show (bc.1, bc.2) ∈ _ from hmem)
  have hcm2 := List.mem_of_mem_tail hcm
  rw [List.mem_map] at hbm hcm2
  obtain ⟨j1, _, hj1⟩ := hbm
  obtain ⟨j2, _, hj2⟩ := hcm2
  have hb : bc.1.1 ^ 2 + bc.1.2.1 ^ 2 = 1 := by
    rw [← hj1]
    simp only [ringV]
    exact Real.cos_sq_add_sin_sq _
  have hc : bc.2.1 ^ 2 + bc.2.2.1 ^ 2 = 1 := by
    rw [← hj2]
    simp only [ringV]
    exact Real.cos_sq_add_sin_sq _
  have hbz : bc.1.2.2 = 1 := by
    rw [← hj1]
    simp [ringV]
  have hcz : bc.2.2.2 = 1 := by
    rw [← hj2]
    simp [ringV]
  have hbounds := cone_frag_bounds bc.1 bc.2 (p.1 - off.1, p.2 - off.2) d hb hc hbz hcz hsome
  have hdist : dist2 p off = norm2 (p.1 - off.1, p.2 - off.2) := rfl
  rw [hdist]
  exact ⟨hbounds.1, hbounds.2.1⟩

/-- Membership description of the full fragment stream. -/
theorem mem_allFrags (n : ℕ) (offsets : List (ℝ × ℝ)) (p : ℝ × ℝ)
    (f : (ℝ × ℝ × ℝ) × ℝ) :
    f ∈ allFrags n offsets p ↔
      ∃ k, k < offsets.length ∧ ∃ d ∈ instDepths n (offsets.getD k (0, 0)) p,
        f = (instColor k, d) := by
  rw [allFrags, List.mem_flatMap]
  constructor
  · rintro ⟨k, hk, hf⟩
    rw [List.mem_range] at hk
    rw [List.mem_map] at hf
    obtain ⟨d, hdm, he⟩ := hf
    exact ⟨k, hk, d, hdm, he.symm⟩
  · rintro ⟨k, hk, d, hdm, rfl⟩
    exact ⟨k, List.mem_range.mpr hk, List.mem_map.mpr ⟨d, hdm, rfl⟩⟩

/-- Characterization of the depth-tested fold: either no fragment passes
(all depths at or above the stored depth) and the state is unchanged, or
the final color and depth come from a fragment that strictly beats the
initial depth and is minimal among all fragments. -/
theorem runFrags_spec (fs : List ((ℝ × ℝ × ℝ) × ℝ)) : ∀ s : Pix,
    (runFrags fs s = s ∧ ∀ f ∈ fs, s.depth ≤ f.2) ∨
    (∃ f ∈ fs, (runFrags fs s).color = f.1 ∧ (runFrags fs s).depth = f.2 ∧
      f.2 < s.depth ∧ ∀ g ∈ fs, f.2 ≤ g.2) := by
  induction fs with
  | nil =>
    intro s
    left
    exact ⟨rfl, by simp⟩
  | cons f fs ih =>
    intro s
    by_cases hf : f.2 < s.depth
    · have hr : runFrags (f :: fs) s = runFrags fs ⟨f.1, f.2⟩ := by
        show runFrags fs (if f.2 < s.depth then ⟨f.1, f.2⟩ else s) = _
        rw [if_pos hf]
      rcases ih ⟨f.1, f.2⟩ with ⟨he, hall⟩ | ⟨g, hg, hc, hd, hlt, hall⟩
      · right
        refine ⟨f, List.mem_cons_self f fs, ?_, ?_, hf, ?_⟩
        · rw [hr, he]
        · rw [hr, he]
        · intro g hg
          rcases List.mem_cons.mp hg with he2 | hg2
          · rw [he2]
          · exact hall g hg2
      · right
        refine ⟨g, List.mem_cons_of_mem f hg, by rw [hr]; exact hc,
          by rw [hr]; exact hd, lt_trans hlt hf, ?_⟩
        intro g2 hg2
        rcases List.mem_cons.mp hg2 with he2 | h2
        · rw [he2]
          exact le_of_lt hlt
        · exact hall g2 h2
    · have hr : runFrags (f :: fs) s = runFrags fs s := by
        show runFrags fs (if f.2 < s.depth then ⟨f.1, f.2⟩ else s) = _
        rw [if_neg hf]
      push_neg at hf
      rcases ih s with ⟨he, hall⟩ | ⟨g, hg, hc, hd, hlt, hall⟩
      · left
        refine ⟨by rw [hr, he], ?_⟩
        intro g hg2
        rcases List.mem_cons.mp hg2 with he2 | h2
        · rw [he2]
          exact hf
        · exact hall g h2
      · right
        refine ⟨g, List.mem_cons_of_mem f hg, by rw [hr]; exact hc,
          by rw [hr]; exact hd, hlt, ?_⟩
        intro g2 hg2
        rcases List.mem_cons.mp hg2 with he2 | h2
        · rw [he2]
          exact le_trans (le_of_lt hlt) hf
        · exact hall g2 h2

/-- C1 counterexample: with a single seed at the origin (`M = 1`), the
viewport corner pixel `(1, 1)` lies at distance `sqrt 2 > 1` from the seed,
beyond the cone base radius, so no cone fragment covers it: the pixel
keeps the offscreen clear color `(1, 1, 0)`, which decodes to the index
65535, and no index below `M = 1` is produced — the decoded index is not a
nearest seed at all, refuting the claim for this rendered diagram. -/
theorem voronoi_nearest_cex :
    decodeIndex (renderPixel 64 [((0 : ℝ), (0 : ℝ))] (1, 1)).color = 65535 ∧
    (renderPixel 64 [((0 : ℝ), (0 : ℝ))] (1, 1)).color = clearColor3 ∧
    ¬ ∃ k : ℕ, k < 1 ∧
      decodeIndex (renderPixel 64 [((0 : ℝ), (0 : ℝ))] (1, 1)).color = (k : ℤ) := by
  have hempty : instDepths 64 ((0 : ℝ), (0 : ℝ)) (1, 1) = [] := by
    rw [List.eq_nil_iff_forall_not_mem]
    intro d hd
    have hb := instDepths_lb 64 (0, 0) (1, 1) d hd
    have hdist : dist2 ((1 : ℝ), (1 : ℝ)) ((0 : ℝ), (0 : ℝ)) = Real.sqrt 2 := by
      unfold dist2 norm2
      norm_num
    rw [hdist] at hb
    have h2 : (1 : ℝ) < Real.sqrt 2 :=
      (Real.lt_sqrt (by norm_num)).mpr (by norm_num)
    linarith [hb.1, hb.2]
  have hall : allFrags 64 [((0 : ℝ), (0 : ℝ))] (1, 1) = [] := by
    rw [allFrags]
    rw [show ([((0 : ℝ), (0 : ℝ))] : List (ℝ × ℝ)).length = 1 from rfl]
    rw [show List.range 1 = [0] from rfl]
    rw [List.flatMap_cons, List.flatMap_nil]
    rw [show ([((0 : ℝ), (0 : ℝ))] : List (ℝ × ℝ)).getD 0 (0, 0)
      = ((0 : ℝ), (0 : ℝ)) from rfl]
    rw [hempty]
    rfl
  have hrp : renderPixel 64 [((0 : ℝ), (0 : ℝ))] (1, 1) = ⟨clearColor3, 1⟩ := by
    rw [renderPixel, hall]
    rfl
  have hdec : decodeIndex clearColor3 = 65535 := by
    show round ((255 : ℝ) * 1) + 256 * round ((255 : ℝ) * 1)
      + 65536 * round ((255 : ℝ) * 0) = 65535
    rw [show ((255 : ℝ) * 1) = ((255 : ℕ) : ℝ) from by norm_num,
      show ((255 : ℝ) * 0) = ((0 : ℕ) : ℝ) from by norm_num,
      round_natCast, round_natCast]
    norm_num
  refine ⟨by rw [hrp]; exact hdec, by rw [hrp], ?_⟩
  rintro ⟨k, hk, he⟩
  rw [hrp] at he
  have he2 : (65535 : ℤ) = (k : ℤ) := by
    rw [← hdec]
    exact he
  omega

/-- C1 (amended): for a rendered diagram whose sample point lies within
the cone inscribed radius `cos (pi / n)` of at least one seed (and
`M ≤ 2^24` seeds, `n ≥ 3` ring segments), the offscreen color of the pixel
decodes to an instance index `kstar < M` whose seed minimizes Euclidean
distance up to the multiplicative tessellation factor `1 / cos (pi / n)`,
which is `1 + O(1/n^2) ⊆ 1 + O(1/n)`.  Without the coverage hypothesis the
claim fails (see the counterexample): the pixel keeps the clear color. -/
theorem voronoi_nearest_seed (n : ℕ) (offsets : List (ℝ × ℝ)) (p : ℝ × ℝ)
    (hn : 3 ≤ n) (hlen : offsets.length ≤ 2 ^ 24)
    (hcov : ∃ k, ∃ hk : k < offsets.length,
      dist2 p (offsets.get ⟨k, hk⟩) < Real.cos (Real.pi / n)) :
    ∃ kstar, ∃ hks : kstar < offsets.length,
      (renderPixel n offsets p).color = instColor kstar ∧
      decodeIndex (renderPixel n offsets p).color = (kstar : ℤ) ∧
      ∀ j, ∀ hj : j < offsets.length,
        dist2 p (offsets.get ⟨kstar, hks⟩) ≤
          dist2 p (offsets.get ⟨j, hj⟩) / Real.cos (Real.pi / n) := by
  obtain ⟨k0, hk0, hd0⟩ := hcov
  have hcos := cos_pi_div_pos n hn
  have hg0 : offsets.getD k0 (0, 0) = offsets.get ⟨k0, hk0⟩ := by
    rw [List.getD_eq_getElem _ _ hk0, List.get_eq_getElem]
  obtain ⟨d0, hd0m, hd0le⟩ := instDepth_cover n (offsets.get ⟨k0, hk0⟩) p hn (le_of_lt hd0)
  have hq0 : dist2 p (offsets.get ⟨k0, hk0⟩) / Real.cos (Real.pi / n) < 1 :=
    (div_lt_one hcos).mpr hd0
  have hd0le2 : d0 ≤ 2 * (dist2 p (offsets.get ⟨k0, hk0⟩) / Real.cos (Real.pi / n)) - 1 := by
    have h2 : 2 * dist2 p (offsets.get ⟨k0, hk0⟩) / Real.cos (Real.pi / n)
        = 2 * (dist2 p (offsets.get ⟨k0, hk0⟩) / Real.cos (Real.pi / n)) := by ring
    rw [h2] at hd0le
    exact hd0le
  have hd0lt1 : d0 < 1 := by linarith
  have hm0 : (instColor k0, d0) ∈ allFrags n offsets p := by
    rw [mem_allFrags]
    refine ⟨k0, hk0, d0, ?_, rfl⟩
    rw [hg0]
    exact hd0m
  rcases runFrags_spec (allFrags n offsets p) ⟨clearColor3, 1⟩ with ⟨_, hall⟩ |
    ⟨f, hf, hc, _, _, hall⟩
  · exfalso
    have h1 : (1 : ℝ) ≤ d0 := hall _ hm0
    linarith
  · obtain ⟨kstar, hks, dstar, hdsm, hfe⟩ := (mem_allFrags n offsets p f).mp hf
    have hcol : (renderPixel n offsets p).color = instColor kstar := by
      show (runFrags (allFrags n offsets p) ⟨clearColor3, 1⟩).color = instColor kstar
      rw [hc, hfe]
    refine ⟨kstar, hks, hcol, ?_, ?_⟩
    · rw [hcol]
      rw [decode_instColor kstar (lt_of_lt_of_le hks hlen)]
    · intro j hj
      have hgk : offsets.getD kstar (0, 0) = offsets.get ⟨kstar, hks⟩ := by
        rw [List.getD_eq_getElem _ _ hks, List.get_eq_getElem]
      have hlb := (instDepths_lb n (offsets.getD kstar (0, 0)) p dstar hdsm).1
      rw [hgk] at hlb
      have hds0 : dstar ≤ d0 := by
        have hx := hall _ hm0
        rw [hfe] at hx
        exact hx
      by_cases hjc : dist2 p (offsets.get ⟨j, hj⟩) < Real.cos (Real.pi / n)
      · obtain ⟨dj, hdjm, hdjle⟩ :=
          instDepth_cover n (offsets.get ⟨j, hj⟩) p hn (le_of_lt hjc)
        have hmj : (instColor j, dj) ∈ allFrags n offsets p := by
          rw [mem_allFrags]
          refine ⟨j, hj, dj, ?_, rfl⟩
          rw [List.getD_eq_getElem _ _ hj]
          exact hdjm
        have hdsj : dstar ≤ dj := by
          have hx := hall _ hmj
          rw [hfe] at hx
          exact hx
        have h2 : 2 * dist2 p (offsets.get ⟨j, hj⟩) / Real.cos (Real.pi / n)
            = 2 * (dist2 p (offsets.get ⟨j, hj⟩) / Real.cos (Real.pi / n)) := by ring
        rw [h2] at hdjle
        linarith
      · push_neg at hjc
        have h1 : (1 : ℝ) ≤ dist2 p (offsets.get ⟨j, hj⟩) / Real.cos (Real.pi / n) := by
          rw [le_div_iff hcos]
          linarith
        linarith

/-- Witness for C1 (amended): one seed at the origin, sampled at the seed
itself, with the default cone resolution 64. -/
theorem voronoi_nearest_seed_witness :
    3 ≤ 64 ∧ ([((0 : ℝ), (0 : ℝ))] : List (ℝ × ℝ)).length ≤ 2 ^ 24 ∧
    (∃ k, ∃ hk : k < ([((0 : ℝ), (0 : ℝ))] : List (ℝ × ℝ)).length,
      dist2 (0, 0) (([((0 : ℝ), (0 : ℝ))] : List (ℝ × ℝ)).get ⟨k, hk⟩)
        < Real.cos (Real.pi / ((64 : ℕ) : ℝ))) ∧
    (∃ kstar, ∃ hks : kstar < ([((0 : ℝ), (0 : ℝ))] : List (ℝ × ℝ)).length,
      (renderPixel 64 [((0 : ℝ), (0 : ℝ))] (0, 0)).color = instColor kstar ∧
      decodeIndex (renderPixel 64 [((0 : ℝ), (0 : ℝ))] (0, 0)).color = (kstar : ℤ) ∧
      ∀ j, ∀ hj : j < ([((0 : ℝ), (0 : ℝ))] : List (ℝ × ℝ)).length,
        dist2 (0, 0) (([((0 : ℝ), (0 : ℝ))] : List (ℝ × ℝ)).get ⟨kstar, hks⟩) ≤
          dist2 (0, 0) (([((0 : ℝ), (0 : ℝ))] : List (ℝ × ℝ)).get ⟨j, hj⟩)
            / Real.cos (Real.pi / ((64 : ℕ) : ℝ))) := by
  have hcov : ∃ k, ∃ hk : k < ([((0 : ℝ), (0 : ℝ))] : List (ℝ × ℝ)).length,
      dist2 (0, 0) (([((0 : ℝ), (0 : ℝ))] : List (ℝ × ℝ)).get ⟨k, hk⟩)
        < Real.cos (Real.pi / ((64 : ℕ) : ℝ)) := by
    refine ⟨0, by norm_num, ?_⟩
    show dist2 ((0 : ℝ), (0 : ℝ)) ((0 : ℝ), (0 : ℝ)) < Real.cos (Real.pi / ((64 : ℕ) : ℝ))
    have hd : dist2 ((0 : ℝ), (0 : ℝ)) ((0 : ℝ), (0 : ℝ)) = 0 := by
      unfold dist2 norm2
      norm_num
    rw [hd]
    exact cos_pi_div_pos 64 (by norm_num)
  exact ⟨by norm_num, by norm_num, hcov,
    voronoi_nearest_seed 64 _ _ (by norm_num) (by norm_num) hcov⟩

end Swingline
